import Mathlib

/-!
Shallow embedding of microbash (src/microbash.c).

The embedding covers:
 - tokenization as performed by strtok_r over the pipe and blank delimiter sets;
 - parse_cmd and parse_line, producing command_t / line_t values and the exact
   diagnostic strings printed on parse failures;
 - the validators check_redirections and check_cd;
 - an event-trace model of execute_line / execute: spawning children, opening
   redirection files (with success decided by oracles), the built-in cd, and
   whether the wait_for_children supervision pass runs;
 - wait_for_children, as a function from the sequence of observed child
   terminations to the list of printed report lines.

Side effects are made explicit: diagnostics are returned as strings, the
current working directory is threaded as a value, and the success of the
open/chdir system calls is decided by oracle functions.  Fatal conditions
(malloc, fork, pipe failures, which terminate the whole process) are assumed
not to occur, as the claims under study do not involve them.
-/

/-- Blank delimiters of parse_cmd's strtok_r tokenization (BLANKS = " \t"). -/
def BLANKS : List Char := [' ', '\t']

/-- Pipe delimiter of parse_line's strtok_r (PIPE = "|"). -/
def PIPE : List Char := ['|']

/-- The built-in command name (CD = "cd"). -/
def CD : String := "cd"

/-- Splitting a character list at delimiter characters keeping empty segments:
the delimiter-separated segments of a line in the naive sense.  An empty input
yields one empty segment. -/
def splitKeepEmpty (delims : List Char) : List Char → List (List Char)
  | [] => [[]]
  | c :: cs =>
    if c ∈ delims then [] :: splitKeepEmpty delims cs
    else
      match splitKeepEmpty delims cs with
      | [] => [[c]]
      | s :: ss => (c :: s) :: ss

/-- strtok_r semantics: the successive tokens are the maximal nonempty runs of
non-delimiter characters, i.e. the naive split with empty segments dropped. -/
def strtok (delims : List Char) (s : List Char) : List (List Char) :=
  (splitKeepEmpty delims s).filter (fun seg => !seg.isEmpty)

/-- command_t: the argument strings (the C args array without its terminating
NULL sentinel; n_args is args.length), and the optional output / input
redirection paths (the C null pointer is none). -/
structure command_t where
  args : List String
  out_pathname : Option String
  in_pathname : Option String
deriving Repr, DecidableEq, Inhabited

/-- The execv-compatible view of a command's args array: some entry below
index n_args, none at index n_args (the NULL sentinel args[n_args] = 0). -/
def command_t.argv (c : command_t) (i : Nat) : Option String := c.args.get? i

/-- line_t: the parsed commands of one line (n_commands is commands.length). -/
structure line_t where
  commands : List command_t
deriving Repr, DecidableEq

/-- Diagnostic printed for a duplicate input redirection. -/
def MSG_DUP_IN : String := "Parsing error: cannot have more than one input redirection"

/-- Diagnostic printed for an input redirection with empty path. -/
def MSG_NOPATH_IN : String := "Parsing error: no path specified for input redirection"

/-- Diagnostic printed for a duplicate output redirection. -/
def MSG_DUP_OUT : String := "Parsing error: cannot have more than one output redirection"

/-- Diagnostic printed for an output redirection with empty path. -/
def MSG_NOPATH_OUT : String := "Parsing error: no path specified for output redirection"

/-- Diagnostic printed for a command with zero arguments. -/
def MSG_EMPTY : String := "Parsing error: empty command"

/-- Diagnostic printed by check_redirections for a misplaced input redirection. -/
def MSG_IN_NOT_FIRST : String := "Parsing error: cannot have input-redirection except in the first command"

/-- Diagnostic printed by check_redirections for a misplaced output redirection. -/
def MSG_OUT_NOT_LAST : String := "Parsing error: cannot have output-redirection except in the last command"

/-- Diagnostic printed by check_cd for a non-first cd. -/
def MSG_CD_PIPE : String := "Parsing error: cannot have CD in pipe"

/-- Diagnostic printed by check_cd when cd is not the sole command
(the wording "more that" is the program's own). -/
def MSG_CD_MANY : String := "Parsing error: cannot have more that one command with CD"

/-- Diagnostic printed by check_cd for cd with an input redirection. -/
def MSG_CD_IN : String := "Parsing error: cannot have input-redirection with CD"

/-- Diagnostic printed by check_cd for cd with an output redirection. -/
def MSG_CD_OUT : String := "Parsing error: cannot have output-redirection with CD"

/-- Diagnostic printed by check_cd for cd with other than 2 argument tokens. -/
def MSG_CD_ARGS : String := "Parsing error: cannot have more than one argument with CD"

/-- The token loop of parse_cmd: each token either records a redirection path
(the remainder after the marker character; duplicate-redirection and
empty-path failures in the C order) or is appended as a plain argument; a
token whose first character is a dollar sign is first replaced by the value
of the named environment variable, or the empty string when the variable is
unset.  After the last token, a command with zero arguments is the
"empty command" parse error. -/
def parse_cmd_loop (env : String → Option String) : List (List Char) → command_t → Except String command_t
  | [], c => if c.args.length ≠ 0 then .ok c else .error MSG_EMPTY
  | tok :: rest, c =>
    match tok with
    | '<' :: path =>
      if c.in_pathname.isSome then .error MSG_DUP_IN
      else if path.isEmpty then .error MSG_NOPATH_IN
      else parse_cmd_loop env rest { c with in_pathname := some (String.mk path) }
    | '>' :: path =>
      if c.out_pathname.isSome then .error MSG_DUP_OUT
      else if path.isEmpty then .error MSG_NOPATH_OUT
      else parse_cmd_loop env rest { c with out_pathname := some (String.mk path) }
    | '$' :: var =>
      parse_cmd_loop env rest { c with args := c.args ++ [(env (String.mk var)).getD ""] }
    | _ =>
      parse_cmd_loop env rest { c with args := c.args ++ [String.mk tok] }

/-- parse_cmd: tokenize one pipe-segment at blanks and run the token loop,
starting from the zeroed command (the C memset). -/
def parse_cmd (env : String → Option String) (cmdstr : List Char) : Except String command_t :=
  parse_cmd_loop env (strtok BLANKS cmdstr) { args := [], out_pathname := none, in_pathname := none }

/-- The segment loop of parse_line: parse each pipe-segment in order,
accumulating the commands; the first failing segment aborts the whole line,
returning no pipeline together with the diagnostic printed by parse_cmd. -/
def parse_line_loop (env : String → Option String) : List (List Char) → List command_t → Option line_t × List String
  | [], acc => (some { commands := acc }, [])
  | seg :: rest, acc =>
    match parse_cmd env seg with
    | .error m => (none, [m])
    | .ok c => parse_line_loop env rest (acc ++ [c])

/-- parse_line: split the line at pipe characters with strtok_r; when that
yields no segment at all (empty line, or only pipes and no other characters)
the result is no pipeline and no diagnostic; otherwise each segment is parsed
in order.  The second component is the list of diagnostics printed. -/
def parse_line (env : String → Option String) (line : List Char) : Option line_t × List String :=
  match strtok PIPE line with
  | [] => (none, [])
  | seg :: rest => parse_line_loop env (seg :: rest) []

/-- The loop of check_redirections over commands with their index i out of n:
an input redirection at i different from 0, or an output redirection at i
different from n-1, fails with the corresponding diagnostic; the input test
of a command precedes its output test, as in the C loop body. -/
def check_redirections_loop (n : Nat) : List command_t → Nat → Except String Unit
  | [], _ => .ok ()
  | c :: rest, i =>
    if c.in_pathname.isSome ∧ i ≠ 0 then .error MSG_IN_NOT_FIRST
    else if c.out_pathname.isSome ∧ i ≠ n - 1 then .error MSG_OUT_NOT_LAST
    else check_redirections_loop n rest (i + 1)

/-- check_redirections: only the first command may have an input redirection
and only the last an output redirection. -/
def check_redirections (l : line_t) : Except String Unit :=
  check_redirections_loop l.commands.length l.commands 0

/-- A command's first argument, args[0] (defaulting to "" on the empty
argument list, which the parser never produces). -/
def firstArg (c : command_t) : String := c.args.headD ""

/-- check_cd, with the C branch order: first the loop rejecting cd as any
non-first command; then, when the first command is not cd, success; otherwise
the sole-command, no-redirection and exactly-2-arguments constraints. -/
def check_cd (l : line_t) : Except String Unit :=
  if (l.commands.drop 1).any (fun c => firstArg c == CD) then .error MSG_CD_PIPE
  else if firstArg (l.commands.headD default) ≠ CD then .ok ()
  else if 1 < l.commands.length then .error MSG_CD_MANY
  else if (l.commands.headD default).in_pathname.isSome then .error MSG_CD_IN
  else if (l.commands.headD default).out_pathname.isSome then .error MSG_CD_OUT
  else if (l.commands.headD default).args.length ≠ 2 then .error MSG_CD_ARGS
  else .ok ()

/-- Observable events of one execute_line run: forking a child for a command,
printing an error line (perror), and running the wait_for_children pass. -/
inductive event where
  | spawn (c : command_t)
  | err (msg : String)
  | wait
deriving Repr, DecidableEq

/-- The output-redirection step of one loop iteration of execute_line: when
the command has an output path, open it (success decided by the oracle oo);
on failure perror the path and return from execute_line (second component
false: the loop did not complete).  Otherwise (or on success) the child is
forked; creating the connecting pipe for a non-last command cannot fail
(pipe failure is fatal) and produces no event. -/
def out_step (oo : String → Bool) (c : command_t) (restRes : List event × Bool) : List event × Bool :=
  match c.out_pathname with
  | some p =>
    if oo p then (event.spawn c :: restRes.1, restRes.2)
    else ([event.err p], false)
  | none => (event.spawn c :: restRes.1, restRes.2)

/-- The input-redirection step of one loop iteration of execute_line: when
the command has an input path, open it read-only (success decided by the
oracle oi); on failure perror the path and return from execute_line. -/
def in_step (oi oo : String → Bool) (c : command_t) (restRes : List event × Bool) : List event × Bool :=
  match c.in_pathname with
  | some p =>
    if oi p then out_step oo c restRes
    else ([event.err p], false)
  | none => out_step oo c restRes

/-- The command loop of execute_line: per command, open the declared
redirections, then fork the child (run_child) and continue.  The Bool is true
exactly when the loop ran over all commands without an open failure, i.e.
when control reaches the wait_for_children call after the loop. -/
def spawn_loop (oi oo : String → Bool) : List command_t → List event × Bool
  | [] => ([], true)
  | c :: rest => in_step oi oo c (spawn_loop oi oo rest)

/-- change_current_directory: chdir(newdir), printing
perror("error in change directory") when the syscall fails (success decided
by the oracle chdirOk); the working directory is threaded explicitly and is
unchanged on failure. -/
def change_current_directory (chdirOk : String → Bool) (cwd newdir : String) : List event × String :=
  if chdirOk newdir then ([], newdir)
  else ([event.err "error in change directory"], cwd)

/-- execute_line: when the first command's args[0] is cd, change the
directory in the current process and return (no fork, no wait pass);
otherwise run the spawn loop and, when it completes, the wait_for_children
pass.  Returns the events and the resulting working directory. -/
def execute_line (chdirOk oi oo : String → Bool) (cwd : String) (l : line_t) : List event × String :=
  if firstArg (l.commands.headD default) = CD then
    change_current_directory chdirOk cwd ((l.commands.headD default).args.getD 1 "")
  else
    match spawn_loop oi oo l.commands with
    | (evs, done) => (evs ++ (if done then [event.wait] else []), cwd)

/-- execute: parse the line; on no pipeline, just the parse diagnostics (none
for an empty line); otherwise run check_redirections and then check_cd
(short-circuit), discarding a failing line after its diagnostic; a line
passing both checks is executed. -/
def execute (env : String → Option String) (chdirOk oi oo : String → Bool) (cwd : String) (line : List Char) : List event × String :=
  match parse_line env line with
  | (none, msgs) => (msgs.map event.err, cwd)
  | (some l, _) =>
    match check_redirections l with
    | .error m => ([event.err m], cwd)
    | .ok _ =>
      match check_cd l with
      | .error m => ([event.err m], cwd)
      | .ok _ => execute_line chdirOk oi oo cwd l

/-- Termination status of one child as decoded from waitpid's status word:
WIFEXITED with WEXITSTATUS, or WIFSIGNALED with WTERMSIG. -/
inductive term_status where
  | exited (code : Nat)
  | signaled (sig : Nat)
deriving Repr, DecidableEq

/-- wait_for_children: the loop waitpid(-1, &status, 0) observes the given
sequence of (pid, status) child terminations; when no children remain waitpid
yields -1 with errno ECHILD and the loop ends normally (the base case).  A
nonzero exit status and a signal termination print the report lines below
(signalName models strsignal); a zero exit status prints nothing. -/
def wait_for_children (signalName : Nat → String) : List (Nat × term_status) → List String
  | [] => []
  | (pid, term_status.exited code) :: rest =>
    (if code ≠ 0 then
      ["Child with PID " ++ toString pid ++ " exited with status " ++ toString code ++ "."]
     else []) ++ wait_for_children signalName rest
  | (pid, term_status.signaled sig) :: rest =>
    ("Child with PID " ++ toString pid ++ " was killed by signal " ++ toString sig ++ " (" ++ signalName sig ++ ").")
      :: wait_for_children signalName rest

/-! Generic list helpers. -/

theorem getq_isSome_of_lt {α : Type} : ∀ (l : List α) (i : Nat), i < l.length → (l.get? i).isSome = true := by
  intro l
  induction l with
  | nil => intro i hi; simp at hi
  | cons a t ih =>
    intro i hi
    cases i with
    | zero => simp [List.get?]
    | succ j => simpa [List.get?] using ih j (Nat.lt_of_succ_lt_succ hi)

theorem getq_length_none {α : Type} : ∀ l : List α, l.get? l.length = none := by
  intro l
  induction l with
  | nil => simp
  | cons a t ih => simp [List.get?]

theorem filter_ext_on {α : Type} (p q : α → Bool) :
    ∀ l : List α, (∀ x ∈ l, p x = q x) → l.filter p = l.filter q := by
  intro l
  induction l with
  | nil => intro _; rfl
  | cons a t ih =>
    intro h
    have ha := h a (List.mem_cons_self a t)
    have ht := ih (fun x hx => h x (List.mem_cons_of_mem a hx))
    simp [List.filter_cons, ha, ht]

/-! Parser invariants. -/

theorem parse_cmd_loop_ok_args_ne (env : String → Option String) :
    ∀ (toks : List (List Char)) (c c' : command_t),
      parse_cmd_loop env toks c = Except.ok c' → c'.args ≠ [] := by
  intro toks
  induction toks with
  | nil =>
    intro c c' h
    simp only [parse_cmd_loop] at h
    split at h
    · cases h
      intro hnil
      simp [hnil] at *
    · cases h
  | cons tok rest ih =>
    intro c c' h
    simp only [parse_cmd_loop] at h
    split at h
    · split at h
      · cases h
      · split at h
        · cases h
        · exact ih _ _ h
    · split at h
      · cases h
      · split at h
        · cases h
        · exact ih _ _ h
    · exact ih _ _ h
    · exact ih _ _ h

theorem parse_cmd_ok_args_ne (env : String → Option String) (seg : List Char) (c : command_t) :
    parse_cmd env seg = Except.ok c → c.args ≠ [] := by
  intro h
  exact parse_cmd_loop_ok_args_ne env _ _ _ h

theorem parse_cmd_ok_tokens_ne (env : String → Option String) (seg : List Char) (c : command_t) :
    parse_cmd env seg = Except.ok c → strtok BLANKS seg ≠ [] := by
  intro h htok
  simp only [parse_cmd, htok, parse_cmd_loop] at h
  simp at h

theorem parse_line_loop_ok (env : String → Option String) :
    ∀ (segs : List (List Char)) (acc : List command_t) (l : line_t) (msgs : List String),
      parse_line_loop env segs acc = (some l, msgs) →
      msgs = [] ∧ l.commands.length = acc.length + segs.length ∧
      (∀ seg ∈ segs, ∃ c, parse_cmd env seg = Except.ok c) ∧
      (∀ c ∈ l.commands, c ∈ acc ∨ ∃ seg, parse_cmd env seg = Except.ok c) := by
  intro segs
  induction segs with
  | nil =>
    intro acc l msgs h
    simp only [parse_line_loop] at h
    cases h
    refine ⟨rfl, by simp, by simp, ?_⟩
    intro c hc
    exact Or.inl hc
  | cons seg rest ih =>
    intro acc l msgs h
    simp only [parse_line_loop] at h
    split at h
    · cases h
    · rename_i c0 hc0
      obtain ⟨hmsgs, hlen, hall, hmem⟩ := ih (acc ++ [c0]) l msgs h
      refine ⟨hmsgs, ?_, ?_, ?_⟩
      · simp at hlen
        simp [hlen]
        omega
      · intro s hs
        rcases List.mem_cons.mp hs with hs1 | hs1
        · exact ⟨c0, hs1 ▸ hc0⟩
        · exact hall s hs1
      · intro c hc
        rcases hmem c hc with hacc | hseg
        · rcases List.mem_append.mp hacc with h1 | h1
          · exact Or.inl h1
          · simp at h1
            exact Or.inr ⟨seg, h1 ▸ hc0⟩
        · exact Or.inr hseg

theorem parse_line_ok (env : String → Option String) (line : List Char) (l : line_t) (msgs : List String) :
    parse_line env line = (some l, msgs) →
    msgs = [] ∧ l.commands.length = (strtok PIPE line).length ∧
    (∀ seg ∈ strtok PIPE line, ∃ c, parse_cmd env seg = Except.ok c) ∧
    (∀ c ∈ l.commands, ∃ seg, parse_cmd env seg = Except.ok c) ∧
    l.commands ≠ [] := by
  intro h
  simp only [parse_line] at h
  split at h
  · cases h
  · rename_i seg rest hsegs
    obtain ⟨hmsgs, hlen, hall, hmem⟩ := parse_line_loop_ok env (seg :: rest) [] l msgs h
    refine ⟨hmsgs, by simpa [hsegs] using hlen, by rw [hsegs]; exact hall, ?_, ?_⟩
    · intro c hc
      rcases hmem c hc with h1 | h1
      · simp at h1
      · exact h1
    · intro hnil
      rw [hnil] at hlen
      simp at hlen

/-! Validator lemmas. -/

theorem check_red_loop_ok_iff (n : Nat) :
    ∀ (cmds : List command_t) (i : Nat),
      check_redirections_loop n cmds i = Except.ok () ↔
      ∀ (j : Nat) (c : command_t), cmds.get? j = some c →
        (c.in_pathname.isSome = true → i + j = 0) ∧
        (c.out_pathname.isSome = true → i + j = n - 1) := by
  intro cmds
  induction cmds with
  | nil =>
    intro i
    constructor
    · intro _ j c hj; simp [List.get?] at hj
    · intro _; rfl
  | cons c0 rest ih =>
    intro i
    simp only [check_redirections_loop]
    split
    · rename_i h1
      constructor
      · intro h; cases h
      · intro hall
        exfalso
        obtain ⟨hin, _⟩ := hall 0 c0 (by simp [List.get?])
        have h0 := hin h1.1
        have h2 := h1.2
        omega
    · rename_i h1
      split
      · rename_i h2
        constructor
        · intro h; cases h
        · intro hall
          exfalso
          obtain ⟨_, hout⟩ := hall 0 c0 (by simp [List.get?])
          have h0 := hout h2.1
          have h3 := h2.2
          omega
      · rename_i h2
        rw [ih (i + 1)]
        constructor
        · intro hall j c hj
          cases j with
          | zero =>
            simp [List.get?] at hj
            subst hj
            constructor
            · intro hin
              by_contra hne
              exact h1 ⟨hin, by omega⟩
            · intro hout
              by_contra hne
              exact h2 ⟨hout, by omega⟩
          | succ k =>
            obtain ⟨hin, hout⟩ := hall k c (by simpa [List.get?] using hj)
            constructor
            · intro hs; have := hin hs; omega
            · intro hs; have := hout hs; omega
        · intro hall j c hj
          obtain ⟨hin, hout⟩ := hall (j + 1) c (by simpa [List.get?] using hj)
          constructor
          · intro hs; have := hin hs; omega
          · intro hs; have := hout hs; omega

theorem check_red_loop_err (n : Nat) :
    ∀ (cmds : List command_t) (i : Nat) (m : String),
      check_redirections_loop n cmds i = Except.error m →
      (m = MSG_IN_NOT_FIRST ∧ ∃ j c, cmds.get? j = some c ∧ c.in_pathname.isSome = true ∧ i + j ≠ 0) ∨
      (m = MSG_OUT_NOT_LAST ∧ ∃ j c, cmds.get? j = some c ∧ c.out_pathname.isSome = true ∧ i + j ≠ n - 1) := by
  intro cmds
  induction cmds with
  | nil => intro i m h; simp [check_redirections_loop] at h
  | cons c0 rest ih =>
    intro i m h
    simp only [check_redirections_loop] at h
    split at h
    · rename_i h1
      cases h
      exact Or.inl ⟨rfl, 0, c0, by simp [List.get?], h1.1, by have := h1.2; omega⟩
    · split at h
      · rename_i h1 h2
        cases h
        exact Or.inr ⟨rfl, 0, c0, by simp [List.get?], h2.1, by have := h2.2; omega⟩
      · rcases ih (i + 1) m h with ⟨hm, j, c, hj, hs, hne⟩ | ⟨hm, j, c, hj, hs, hne⟩
        · exact Or.inl ⟨hm, j + 1, c, by simpa [List.get?] using hj, hs, by omega⟩
        · exact Or.inr ⟨hm, j + 1, c, by simpa [List.get?] using hj, hs, by omega⟩

/-! Execution-engine lemmas. -/

theorem out_step_cases (oo : String → Bool) (c : command_t) (R : List event × Bool) :
    out_step oo c R = (event.spawn c :: R.1, R.2) ∨
    ∃ p, c.out_pathname = some p ∧ oo p = false ∧ out_step oo c R = ([event.err p], false) := by
  unfold out_step
  cases hout : c.out_pathname with
  | none => exact Or.inl rfl
  | some p =>
    by_cases h : oo p
    · simp [h]
    · simp [h]

theorem in_step_cases (oi oo : String → Bool) (c : command_t) (R : List event × Bool) :
    in_step oi oo c R = out_step oo c R ∨
    ∃ p, c.in_pathname = some p ∧ oi p = false ∧ in_step oi oo c R = ([event.err p], false) := by
  unfold in_step
  cases hin : c.in_pathname with
  | none => exact Or.inl rfl
  | some p =>
    by_cases h : oi p
    · simp [h]
    · simp [h]

theorem spawn_loop_cases (oi oo : String → Bool) :
    ∀ cmds : List command_t,
      spawn_loop oi oo cmds = (cmds.map event.spawn, true) ∨
      ∃ k p, k < cmds.length ∧
        spawn_loop oi oo cmds = ((cmds.take k).map event.spawn ++ [event.err p], false) := by
  intro cmds
  induction cmds with
  | nil => exact Or.inl rfl
  | cons c rest ih =>
    have hstep : spawn_loop oi oo (c :: rest) = in_step oi oo c (spawn_loop oi oo rest) := rfl
    rcases in_step_cases oi oo c (spawn_loop oi oo rest) with hin | ⟨p, _, _, hin⟩
    · rcases out_step_cases oo c (spawn_loop oi oo rest) with hout | ⟨p, _, _, hout⟩
      · rcases ih with hr | ⟨k, p, hk, hr⟩
        · left
          rw [hstep, hin, hout, hr]
          simp
        · right
          refine ⟨k + 1, p, by simp; omega, ?_⟩
          rw [hstep, hin, hout, hr]
          simp
      · right
        exact ⟨0, p, by simp, by rw [hstep, hin, hout]; simp⟩
    · right
      exact ⟨0, p, by simp, by rw [hstep, hin]; simp⟩

theorem wait_not_mem_spawns (cmds : List command_t) (p : String) :
    event.wait ∉ (cmds.map event.spawn ++ [event.err p]) := by
  intro h
  rcases List.mem_append.mp h with h1 | h1
  · rcases List.mem_map.mp h1 with ⟨c, _, hc⟩
    cases hc
  · simp at h1

/-! Claim theorems. -/

/-- Claim C1, counterexample: the claim says that with variable X unset the
token "$X" contributes no argument to the parsed command.  On the code, the
segment "echo $X" parsed under an empty environment yields the two arguments
["echo", ""]: the empty substitution is appended as an empty-string argument,
not dropped, so the argument list differs from ["echo"]. -/
theorem c1_counterexample :
    parse_cmd (fun _ => none) "echo $X".toList =
      Except.ok { args := ["echo", ""], out_pathname := none, in_pathname := none } ∧
    ({ args := ["echo", ""], out_pathname := none, in_pathname := none } : command_t).args ≠ ["echo"] :=
  ⟨rfl, by decide⟩

/-- Claim C1 (amended): a token whose first character is a dollar sign is
replaced by the value of the named environment variable, or the empty string
if the variable is unset, before being treated as a plain argument; the
substitution result is always appended as an argument, so with X unset the
token "$X" contributes the empty-string argument "", while with X = "5" it
contributes the argument "5". -/
theorem c1_amended_thm :
    (∀ (env : String → Option String) (var : List Char) (rest : List (List Char)) (c : command_t),
      parse_cmd_loop env (('$' :: var) :: rest) c =
        parse_cmd_loop env rest { c with args := c.args ++ [(env (String.mk var)).getD ""] }) ∧
    parse_cmd (fun _ => none) "echo $X".toList =
      Except.ok { args := ["echo", ""], out_pathname := none, in_pathname := none } ∧
    parse_cmd (fun n => if n = "X" then some "5" else none) "echo $X".toList =
      Except.ok { args := ["echo", "5"], out_pathname := none, in_pathname := none } :=
  ⟨fun _ _ _ _ => rfl, rfl, rfl⟩

/-- Claim C2, counterexample: the claim says that after an open failure the
already-spawned children of the pipeline are still supervised, i.e. the
wait-and-report pass still runs over them.  On the code, for the validated
line "a | b >f" whose output-file open fails, execute aborts the launch after
spawning only the first command and returns immediately: the trace contains
no wait event at all (and no spawn of the second command). -/
theorem c2_counterexample :
    execute (fun _ => none) (fun _ => true) (fun _ => true) (fun _ => false) "/" ("a | b >f".toList) =
      ([event.spawn { args := ["a"], out_pathname := none, in_pathname := none }, event.err "f"], "/") ∧
    event.wait ∉ [event.spawn { args := ["a"], out_pathname := none, in_pathname := none },
                  event.err "f"] ∧
    event.spawn { args := ["b"], out_pathname := some "f", in_pathname := none } ∉
      [event.spawn { args := ["a"], out_pathname := none, in_pathname := none }, event.err "f"] :=
  ⟨rfl, by decide, by decide⟩

/-- Claim C2 (amended): for every validated pipeline, if opening a command's
input or output redirection file fails (i.e. the spawn loop does not run to
completion), the engine aborts the entire pipeline launch: the trace is the
spawns of a strict prefix of the commands followed by the perror line for the
failing path, no further commands are spawned, and the wait-and-report pass
over the already-spawned children is skipped for that pipeline (no wait event
occurs). -/
theorem c2_amended_thm (chdirOk oi oo : String → Bool) (cwd : String) (l : line_t)
    (hcd : firstArg (l.commands.headD default) ≠ CD)
    (hfail : (spawn_loop oi oo l.commands).2 = false) :
    ∃ k p, k < l.commands.length ∧
      execute_line chdirOk oi oo cwd l =
        ((l.commands.take k).map event.spawn ++ [event.err p], cwd) ∧
      event.wait ∉ (execute_line chdirOk oi oo cwd l).1 := by
  rcases spawn_loop_cases oi oo l.commands with h | ⟨k, p, hk, h⟩
  · rw [h] at hfail; simp at hfail
  · have heq : execute_line chdirOk oi oo cwd l =
        ((l.commands.take k).map event.spawn ++ [event.err p], cwd) := by
      unfold execute_line
      rw [if_neg hcd, h]
      simp
    exact ⟨k, p, hk, heq, by rw [heq]; exact wait_not_mem_spawns _ p⟩

/-- Claim C2, witness: the amended theorem applied to the concrete pipeline
of "a | b >f" with a failing output open. -/
theorem c2_witness :
    ∃ k p,
      k < ({ commands := [{ args := ["a"], out_pathname := none, in_pathname := none },
                          { args := ["b"], out_pathname := some "f", in_pathname := none }] } :
             line_t).commands.length ∧
      execute_line (fun _ => true) (fun _ => true) (fun _ => false) "/"
          { commands := [{ args := ["a"], out_pathname := none, in_pathname := none },
                         { args := ["b"], out_pathname := some "f", in_pathname := none }] } =
        ((({ commands := [{ args := ["a"], out_pathname := none, in_pathname := none },
                          { args := ["b"], out_pathname := some "f", in_pathname := none }] } :
             line_t).commands.take k).map event.spawn ++ [event.err p], "/") ∧
      event.wait ∉ (execute_line (fun _ => true) (fun _ => true) (fun _ => false) "/"
          { commands := [{ args := ["a"], out_pathname := none, in_pathname := none },
                         { args := ["b"], out_pathname := some "f", in_pathname := none }] }).1 :=
  c2_amended_thm (fun _ => true) (fun _ => true) (fun _ => false) "/"
    { commands := [{ args := ["a"], out_pathname := none, in_pathname := none },
                   { args := ["b"], out_pathname := some "f", in_pathname := none }] }
    (by decide) rfl

/-- Claim C5: for every terminated child observed by the supervisor, a child
that exited with nonzero status produces exactly the line
"Child with PID [pid] exited with status [status].", a child terminated by a
signal produces exactly
"Child with PID [pid] was killed by signal [num] ([name]).", a child that
exited with status zero produces no output, and the loop ends normally with
no output once no children remain (ECHILD, the base case). -/
theorem spec_c5 (signalName : Nat → String) (children : List (Nat × term_status)) :
    wait_for_children signalName children =
      children.filterMap (fun pc =>
        match pc with
        | (pid, term_status.exited code) =>
          if code = 0 then none
          else some ("Child with PID " ++ toString pid ++ " exited with status " ++
                      toString code ++ ".")
        | (pid, term_status.signaled sig) =>
          some ("Child with PID " ++ toString pid ++ " was killed by signal " ++
                 toString sig ++ " (" ++ signalName sig ++ ").")) ∧
    wait_for_children signalName [] = [] := by
  refine ⟨?_, rfl⟩
  induction children with
  | nil => rfl
  | cons pc rest ih =>
    obtain ⟨pid, st⟩ := pc
    cases st with
    | exited code =>
      by_cases h : code = 0
      · subst h
        simp [wait_for_children, List.filterMap_cons, ih]
      · simp [wait_for_children, List.filterMap_cons, h, ih]
    | signaled sig =>
      simp [wait_for_children, List.filterMap_cons, ih]

/-- Claim C7: whenever the first command of the pipeline is the built-in cd,
execute_line performs the directory change directly and returns: no child is
spawned and no supervision pass occurs; on chdir success the working
directory becomes the argument, on failure an error line is reported and the
working directory is unchanged. -/
theorem spec_c7 (chdirOk oi oo : String → Bool) (cwd : String) (l : line_t)
    (hcd : firstArg (l.commands.headD default) = CD) :
    execute_line chdirOk oi oo cwd l =
      (if chdirOk ((l.commands.headD default).args.getD 1 "") then
         ([], (l.commands.headD default).args.getD 1 "")
       else ([event.err "error in change directory"], cwd)) ∧
    (∀ c, event.spawn c ∉ (execute_line chdirOk oi oo cwd l).1) ∧
    event.wait ∉ (execute_line chdirOk oi oo cwd l).1 ∧
    (chdirOk ((l.commands.headD default).args.getD 1 "") = false →
      (execute_line chdirOk oi oo cwd l).2 = cwd) := by
  have heq : execute_line chdirOk oi oo cwd l =
      change_current_directory chdirOk cwd ((l.commands.headD default).args.getD 1 "") := by
    unfold execute_line
    rw [if_pos hcd]
  by_cases h : chdirOk ((l.commands.headD default).args.getD 1 "") = true
  · have hres : execute_line chdirOk oi oo cwd l =
        ([], (l.commands.headD default).args.getD 1 "") := by
      rw [heq]
      unfold change_current_directory
      rw [if_pos h]
    refine ⟨by rw [hres, if_pos h], ?_, ?_, ?_⟩
    · intro c
      rw [hres]
      simp
    · rw [hres]
      simp
    · intro hf
      rw [h] at hf
      exact Bool.noConfusion hf
  · have hres : execute_line chdirOk oi oo cwd l =
        ([event.err "error in change directory"], cwd) := by
      rw [heq]
      unfold change_current_directory
      rw [if_neg h]
    refine ⟨by rw [hres, if_neg h], ?_, ?_, ?_⟩
    · intro c
      rw [hres]
      simp
    · rw [hres]
      simp
    · intro _
      rw [hres]

/-- Claim C7, witness: the theorem applied to the pipeline of "cd /tmp" with
a failing chdir: nothing is spawned, no wait pass runs, the error line is
printed and the working directory stays "/". -/
theorem c7_witness :
    execute_line (fun _ => false) (fun _ => true) (fun _ => true) "/"
        { commands := [{ args := ["cd", "/tmp"], out_pathname := none, in_pathname := none }] } =
      ([event.err "error in change directory"], "/") ∧
    (∀ c, event.spawn c ∉
      (execute_line (fun _ => false) (fun _ => true) (fun _ => true) "/"
        { commands := [{ args := ["cd", "/tmp"], out_pathname := none, in_pathname := none }] }).1) ∧
    event.wait ∉
      (execute_line (fun _ => false) (fun _ => true) (fun _ => true) "/"
        { commands := [{ args := ["cd", "/tmp"], out_pathname := none, in_pathname := none }] }).1 ∧
    (execute_line (fun _ => false) (fun _ => true) (fun _ => true) "/"
        { commands := [{ args := ["cd", "/tmp"], out_pathname := none, in_pathname := none }] }).2 = "/" := by
  have h := spec_c7 (fun _ => false) (fun _ => true) (fun _ => true) "/"
    { commands := [{ args := ["cd", "/tmp"], out_pathname := none, in_pathname := none }] }
    (by decide)
  exact ⟨by rw [h.1]; rfl, h.2.1, h.2.2.1, h.2.2.2 rfl⟩

/-- Claim C8: parsing an empty line produces no pipeline and is not an error:
the parser returns no pipeline with no diagnostic, and execute performs
nothing for that line (no events, no directory change). -/
theorem spec_c8 (env : String → Option String) (chdirOk oi oo : String → Bool) (cwd : String) :
    parse_line env "".toList = (none, []) ∧
    execute env chdirOk oi oo cwd "".toList = ([], cwd) :=
  ⟨rfl, rfl⟩

/-- Claim C10: adjacent pipe delimiters are collapsed rather than producing an
empty command: a line of only pipe characters parses to no pipeline with no
diagnostic and executes to nothing, exactly like an empty line, and "a||b"
parses successfully into the two commands a and b. -/
theorem spec_c10 (env : String → Option String) (chdirOk oi oo : String → Bool) (cwd : String) :
    parse_line env "|||".toList = (none, []) ∧
    execute env chdirOk oi oo cwd "|||".toList = ([], cwd) ∧
    (parse_line env "a||b".toList).1 =
      some { commands := [{ args := ["a"], out_pathname := none, in_pathname := none },
                          { args := ["b"], out_pathname := none, in_pathname := none }] } :=
  ⟨rfl, rfl, rfl⟩

/-- Claim C3: the redirection-placement check succeeds iff no command other
than the first declares an input redirection and no command other than the
last declares an output redirection; a failure carries the corresponding
descriptive message for an actual violation of that kind; and a pipeline that
fails the check is discarded by execute without spawning any process, after
the check's diagnostic. -/
theorem spec_c3 (l : line_t) :
    (check_redirections l = Except.ok () ↔
      ∀ (j : Nat) (c : command_t), l.commands.get? j = some c →
        (c.in_pathname.isSome = true → j = 0) ∧
        (c.out_pathname.isSome = true → j = l.commands.length - 1)) ∧
    (∀ m, check_redirections l = Except.error m →
      (m = MSG_IN_NOT_FIRST ∧
        ∃ j c, l.commands.get? j = some c ∧ c.in_pathname.isSome = true ∧ j ≠ 0) ∨
      (m = MSG_OUT_NOT_LAST ∧
        ∃ j c, l.commands.get? j = some c ∧ c.out_pathname.isSome = true ∧
          j ≠ l.commands.length - 1)) ∧
    (∀ (env : String → Option String) (chdirOk oi oo : String → Bool) (cwd : String)
        (line : List Char) (msgs : List String) (m : String),
      parse_line env line = (some l, msgs) → check_redirections l = Except.error m →
      execute env chdirOk oi oo cwd line = ([event.err m], cwd) ∧
      ∀ c, event.spawn c ∉ (execute env chdirOk oi oo cwd line).1) := by
  refine ⟨?_, ?_, ?_⟩
  · have h := check_red_loop_ok_iff l.commands.length l.commands 0
    simpa [check_redirections] using h
  · intro m hm
    have h := check_red_loop_err l.commands.length l.commands 0 m
      (by simpa [check_redirections] using hm)
    simpa using h
  · intro env chdirOk oi oo cwd line msgs m hp hm
    have hex : execute env chdirOk oi oo cwd line = ([event.err m], cwd) := by
      simp [execute, hp, hm]
    refine ⟨hex, ?_⟩
    intro c
    rw [hex]
    simp

/-- Claim C3, witness: the theorem applied to the parsed pipeline of the
line "a >f | b": the check fails with the output-redirection message and the
line is discarded with no spawn. -/
theorem c3_witness :
    execute (fun _ => none) (fun _ => true) (fun _ => true) (fun _ => true) "/"
        ("a >f | b".toList) = ([event.err MSG_OUT_NOT_LAST], "/") ∧
    ∀ c, event.spawn c ∉
      (execute (fun _ => none) (fun _ => true) (fun _ => true) (fun _ => true) "/"
        ("a >f | b".toList)).1 :=
  (spec_c3 { commands := [{ args := ["a"], out_pathname := some "f", in_pathname := none },
                          { args := ["b"], out_pathname := none, in_pathname := none }] }).2.2
    (fun _ => none) (fun _ => true) (fun _ => true) (fun _ => true) "/"
    ("a >f | b".toList) [] MSG_OUT_NOT_LAST rfl rfl

/-- Claim C4: the built-in check fails with the "cannot have CD in pipe"
diagnostic whenever some non-first command's first argument is cd; when the
first command is cd, it succeeds exactly when that command is the sole
command, has no input or output redirection, and has exactly 2 argument
tokens; in particular "a | cd /tmp" is rejected with the CD-in-pipe
diagnostic and "cd a b" with the more-than-one-argument diagnostic. -/
theorem spec_c4 :
    (∀ l : line_t,
      ((∃ c ∈ l.commands.drop 1, firstArg c = CD) →
        check_cd l = Except.error MSG_CD_PIPE) ∧
      (firstArg (l.commands.headD default) = CD →
        (check_cd l = Except.ok () ↔
          (l.commands.length = 1 ∧
           (l.commands.headD default).in_pathname = none ∧
           (l.commands.headD default).out_pathname = none ∧
           (l.commands.headD default).args.length = 2)))) ∧
    (∀ env : String → Option String,
      (parse_line env "a | cd /tmp".toList).1.map check_cd =
        some (Except.error MSG_CD_PIPE) ∧
      (parse_line env "cd a b".toList).1.map check_cd =
        some (Except.error MSG_CD_ARGS)) := by
  constructor
  · intro l
    constructor
    · rintro ⟨c, hc, hcd⟩
      have hany : (l.commands.drop 1).any (fun c => firstArg c == CD) = true :=
        List.any_eq_true.mpr ⟨c, hc, by simp [hcd]⟩
      unfold check_cd
      rw [if_pos hany]
    · intro hfirst
      have hne : l.commands ≠ [] := by
        intro h0
        rw [h0] at hfirst
        exact absurd hfirst (by decide)
      constructor
      · intro hok
        by_cases hany : (l.commands.drop 1).any (fun c => firstArg c == CD) = true
        · unfold check_cd at hok
          rw [if_pos hany] at hok
          exact absurd hok (by simp)
        · unfold check_cd at hok
          rw [if_neg hany, if_neg (not_not_intro hfirst)] at hok
          split at hok
          · exact absurd hok (by simp)
          · split at hok
            · exact absurd hok (by simp)
            · split at hok
              · exact absurd hok (by simp)
              · split at hok
                · exact absurd hok (by simp)
                · rename_i h1 h2 h3 h4
                  have hpos : 0 < l.commands.length := List.length_pos.mpr hne
                  refine ⟨by omega, ?_, ?_, by omega⟩
                  · cases hcase : (l.commands.headD default).in_pathname
                    · rfl
                    · rw [hcase] at h2
                      simp at h2
                  · cases hcase : (l.commands.headD default).out_pathname
                    · rfl
                    · rw [hcase] at h3
                      simp at h3
      · rintro ⟨hlen, hin, hout, hargs⟩
        obtain ⟨c0, hc0⟩ := List.length_eq_one.mp hlen
        rw [hc0] at hfirst hin hout hargs
        simp only [List.headD_cons] at hfirst hin hout hargs
        simp [check_cd, hc0, hfirst, hin, hout, hargs, firstArg]
  · intro env
    exact ⟨rfl, rfl⟩

/-- Claim C4, witness: the theorem applied to the pipeline of "a | cd /tmp"
(rejected: cd in pipe) and to the sole command "cd x" with 2 argument tokens
(accepted). -/
theorem c4_witness :
    check_cd { commands := [{ args := ["a"], out_pathname := none, in_pathname := none },
                            { args := ["cd", "/tmp"], out_pathname := none, in_pathname := none }] } =
      Except.error MSG_CD_PIPE ∧
    check_cd { commands := [{ args := ["cd", "x"], out_pathname := none, in_pathname := none }] } =
      Except.ok () :=
  ⟨(spec_c4.1 _).1 (by decide),
   ((spec_c4.1 _).2 (by decide)).mpr (by decide)⟩

/-- Claim C6: for every line that parses successfully, the number of commands
of the resulting pipeline equals the number of pipe-delimited segments of the
line that contain at least one token. -/
theorem spec_c6 (env : String → Option String) (line : List Char) (l : line_t)
    (msgs : List String) (h : parse_line env line = (some l, msgs)) :
    l.commands.length =
      ((splitKeepEmpty PIPE line).filter (fun seg => !(strtok BLANKS seg).isEmpty)).length := by
  obtain ⟨_, hlen, hall, _, _⟩ := parse_line_ok env line l msgs h
  rw [hlen]
  have h1 : strtok PIPE line = (splitKeepEmpty PIPE line).filter (fun seg => !seg.isEmpty) := rfl
  rw [h1]
  congr 1
  apply filter_ext_on
  intro x hx
  by_cases hxe : x.isEmpty = true
  · have hx0 : x = [] := by
      cases x
      · rfl
      · simp [List.isEmpty] at hxe
    subst hx0
    rfl
  · have hxe' : x.isEmpty = false := by simpa using hxe
    have hmem : x ∈ strtok PIPE line := by
      rw [h1]
      exact List.mem_filter.mpr ⟨hx, by simp [hxe']⟩
    obtain ⟨c, hc⟩ := hall x hmem
    have htok := parse_cmd_ok_tokens_ne env x c hc
    have htoke : (strtok BLANKS x).isEmpty = false := by
      cases hcase : strtok BLANKS x
      · exact absurd hcase htok
      · rfl
    rw [hxe', htoke]

/-- Claim C6, witness: the theorem applied to the line "a||b", whose four
pipe-delimited segments in the naive sense are "a", "", "b" (two of them
with a token) and which parses into two commands. -/
theorem c6_witness :
    ({ commands := [{ args := ["a"], out_pathname := none, in_pathname := none },
                    { args := ["b"], out_pathname := none, in_pathname := none }] } :
       line_t).commands.length =
      ((splitKeepEmpty PIPE "a||b".toList).filter
        (fun seg => !(strtok BLANKS seg).isEmpty)).length :=
  spec_c6 (fun _ => none) "a||b".toList
    { commands := [{ args := ["a"], out_pathname := none, in_pathname := none },
                   { args := ["b"], out_pathname := none, in_pathname := none }] } [] rfl

/-- Claim C9: every pipeline the parser returns has at least one command, and
every command of it has at least one argument, with the execv-compatible
argv view holding a string at every index below n_args and the NULL sentinel
at index n_args; in particular commands[0] and args[0] are always in
bounds. -/
theorem spec_c9 (env : String → Option String) (line : List Char) (l : line_t)
    (msgs : List String) (h : parse_line env line = (some l, msgs)) :
    l.commands ≠ [] ∧ (l.commands.get? 0).isSome = true ∧
    ∀ c ∈ l.commands, c.args ≠ [] ∧ (c.argv 0).isSome = true ∧
      c.argv c.args.length = none ∧
      ∀ i, i < c.args.length → (c.argv i).isSome = true := by
  obtain ⟨_, _, _, hmem, hne⟩ := parse_line_ok env line l msgs h
  refine ⟨hne, ?_, ?_⟩
  · exact getq_isSome_of_lt _ _ (List.length_pos.mpr hne)
  · intro c hc
    obtain ⟨seg, hseg⟩ := hmem c hc
    have hargs := parse_cmd_ok_args_ne env seg c hseg
    refine ⟨hargs, ?_, ?_, ?_⟩
    · exact getq_isSome_of_lt _ _ (List.length_pos.mpr hargs)
    · exact getq_length_none c.args
    · intro i hi
      exact getq_isSome_of_lt _ _ hi

/-- Claim C9, witness: the theorem applied to the parsed line "echo hi". -/
theorem c9_witness :
    ({ commands := [{ args := ["echo", "hi"], out_pathname := none, in_pathname := none }] } :
       line_t).commands ≠ [] ∧
    (({ commands := [{ args := ["echo", "hi"], out_pathname := none, in_pathname := none }] } :
       line_t).commands.get? 0).isSome = true ∧
    ∀ c ∈ ({ commands := [{ args := ["echo", "hi"], out_pathname := none, in_pathname := none }] } :
       line_t).commands, c.args ≠ [] ∧ (c.argv 0).isSome = true ∧
      c.argv c.args.length = none ∧
      ∀ i, i < c.args.length → (c.argv i).isSome = true :=
  spec_c9 (fun _ => none) "echo hi".toList
    { commands := [{ args := ["echo", "hi"], out_pathname := none, in_pathname := none }] } [] rfl
